import Mathlib

/-!
Verification development for the eino typed dataflow graph engine
(`compose` chain builder and the ReAct agent layer).

The definitions below are a shallow embedding of the Go source:
pure functions become Lean functions, in-place mutation of the builder
becomes explicit state passing on a `Chain` structure, `error` returns
become `Except String`/`Option String`, and Go maps become association
lists (their iteration order is fixed to list order).  Definitions whose
backing code lives in files outside the provided sources (the generic
graph builder, the compile defaulting logic, the scheduler) are modelled
from the specification and flagged as such in their doc comments.
-/

deriving instance DecidableEq for Except

namespace Eino

/-- Modelled from the spec: the virtual entry node key, always present. -/
def START : String := "start"

/-- Modelled from the spec: the virtual exit node key, always present. -/
def END : String := "end"

/-- Modelled from the spec: the trigger mode in which a node fires as soon
as one upstream edge delivers.  The concrete string value of the constant
is not in the provided sources; only its distinctness matters. -/
def AnyPredecessor : String := "any_predecessor"

/-- Modelled from the spec: the Pregel-style trigger mode in which a node
fires only once all predecessors have delivered. -/
def AllPredecessor : String := "all_predecessor"

/-! ### Branch condition wrappers (`invokeCon` / `transformCon`)

`Chain.AppendBranch` wraps the user condition so that its runtime result
(a key of the `ChainBranch`) is translated to the generated graph node
key via the `key2NodeKey` map built at append time.  The wrapped
condition is embedded here over an association list standing for
`key2NodeKey`, with the condition's already-computed result as input. -/

/-- The dynamic (`any`-typed) result of a chain branch condition: either a
string key or a value of some other runtime type (only its type name is
relevant, for the error message). -/
inductive BranchAny where
  | str (s : String)
  | nonStr (typeName : String)
deriving Repr, DecidableEq

/-- Association-list lookup, first binding wins (embeds Go map indexing
`key2NodeKey[endStr]`). -/
def lookupKey (m : List (String × String)) (k : String) : Option String :=
  (m.find? (fun p => p.1 = k)).map Prod.snd

/-- Embedding of the `invokeCon` closure built in `Chain.AppendBranch`
(chain.go): run the condition, require a string result, require the
result to be a declared key, and return the registered graph node key. -/
def invokeCon (key2NodeKey : List (String × String))
    (condRes : Except String BranchAny) : Except String String :=
  match condRes with
  | .error e => .error e
  | .ok (.nonStr t) => .error ("chain branch result not string, got: " ++ t)
  | .ok (.str endStr) =>
    match lookupKey key2NodeKey endStr with
    | none => .error ("chain branch result not in added keys: " ++ endStr)
    | some nodeKey => .ok nodeKey

/-- The stream-shaped result of a chain branch condition: a stream of
string chunks (each `Recv` may fail), or a stream of some other chunk
type (only its type name is relevant). -/
inductive BranchStream where
  | strStream (chunks : List (Except String String))
  | otherStream (typeName : String)
deriving Repr, DecidableEq

/-- Embedding of `concatStreamReader` on a string stream: sequential
`Recv` until exhaustion, a chunk-level error terminates the stream with
that error, otherwise the chunks are joined by append. -/
def concatStringChunks : List (Except String String) → Except String String
  | [] => .ok ""
  | .error e :: _ => .error e
  | .ok s :: rest =>
    match concatStringChunks rest with
    | .error e => .error e
    | .ok tail => .ok (s ++ tail)

/-- Embedding of the `transformCon` closure built in `Chain.AppendBranch`
(chain.go): run the stream condition, require the chunk type to be
string, concatenate the chunks, require the concatenation to be a
declared key, and return a one-chunk stream holding the registered graph
node key.  (The `unpackStreamReader` failure path is unreachable once the
chunk type is string and is not modelled separately.) -/
def transformCon (key2NodeKey : List (String × String))
    (condStreamRes : Except String BranchStream) : Except String (List String) :=
  match condStreamRes with
  | .error e => .error e
  | .ok (.otherStream t) => .error ("chain branch result not string, got: " ++ t)
  | .ok (.strStream chunks) =>
    match concatStringChunks chunks with
    | .error e => .error e
    | .ok endStr =>
      match lookupKey key2NodeKey endStr with
      | none => .error ("chain branch result not in added keys: " ++ endStr)
      | some nodeKey => .ok [nodeKey]

/-- The declared candidate set of the generated `GraphBranch` (`gBranch`
in chain.go): the values of `key2NodeKey`. -/
def branchEndNodes (key2NodeKey : List (String × String)) : List String :=
  key2NodeKey.map Prod.snd

/-- Modelled from the spec: the Scheduler activates exactly the successor
whose key the branch condition returned; sibling candidates are never
scheduled.  The scheduler itself is outside the provided sources; this
records, for one branch evaluation, the list of candidate node keys that
get invoked. -/
def branchRunInvoked (key2NodeKey : List (String × String))
    (condRes : Except String BranchAny) : List String :=
  match invokeCon key2NodeKey condRes with
  | .ok nodeKey => [nodeKey]
  | .error _ => []

/-- The condition's runtime result fails to designate a declared
candidate: it is a non-string value, or a string outside the declared
key set. -/
def condResultOutsideDeclared (m : List (String × String))
    (r : Except String BranchAny) : Prop :=
  match r with
  | .ok (.str s) => lookupKey m s = none
  | .ok (.nonStr _) => True
  | .error _ => False

instance (m : List (String × String)) (r : Except String BranchAny) :
    Decidable (condResultOutsideDeclared m r) := by
  unfold condResultOutsideDeclared
  cases r with
  | error e => exact inferInstanceAs (Decidable False)
  | ok v =>
    cases v with
    | str s => exact inferInstanceAs (Decidable (_ = none))
    | nonStr t => exact inferInstanceAs (Decidable True)

/-- The stream condition's runtime result fails to designate a declared
candidate: wrong chunk type, or the concatenated string is outside the
declared key set. -/
def streamResultOutsideDeclared (m : List (String × String))
    (rs : Except String BranchStream) : Prop :=
  match rs with
  | .ok (.strStream chunks) =>
    ∀ s, concatStringChunks chunks = .ok s → lookupKey m s = none
  | .ok (.otherStream _) => True
  | .error _ => False

/-! ### Graph builder (modelled)

The generic graph builder (`graph.go`) is not among the provided
sources; only the chain layer that drives it is.  The builder state and
its three mutators are modelled from the spec: nodes are identified by
unique keys, an edge's endpoints must exist (START and END are always
present), a branch is registered on an existing start node, and a frozen
builder rejects further mutation.  Edge type compatibility is not
modelled; no claim below depends on it. -/

/-- Modelled from the spec: a registered conditional branch, carrying its
declared candidate successor set (`endNodes` of `GraphBranch`). -/
structure GraphBranch where
  endNodes : List String
deriving Repr, DecidableEq

/-- Modelled from the spec: the mutable graph builder accumulating nodes,
edges, and branches, with a frozen flag set by compile. -/
structure Graph where
  nodes : List String
  edges : List (String × String)
  branches : List (String × GraphBranch)
  frozen : Bool
deriving Repr, DecidableEq

/-- The empty builder produced by `NewGraph`. -/
def Graph.empty : Graph := ⟨[], [], [], false⟩

/-- Modelled from the spec: add a node under a key; fails on a duplicate
key, on the reserved START/END keys, or on a frozen builder. -/
def Graph.addNode (g : Graph) (key : String) : Except String Graph :=
  if g.frozen then .error "graph is frozen, cannot add node"
  else if key = START ∨ key = END then .error ("node key is reserved: " ++ key)
  else if key ∈ g.nodes then .error ("node already present: " ++ key)
  else .ok { g with nodes := g.nodes ++ [key] }

/-- Modelled from the spec: add a directed edge; both endpoints must
exist in the graph (START and END are always present); a frozen builder
rejects mutation. -/
def Graph.AddEdge (g : Graph) (src dst : String) : Except String Graph :=
  if g.frozen then .error "graph is frozen, cannot add edge"
  else if ¬ (src = START ∨ src ∈ g.nodes) then .error ("edge from unknown node: " ++ src)
  else if ¬ (dst = END ∨ dst ∈ g.nodes) then .error ("edge to unknown node: " ++ dst)
  else .ok { g with edges := g.edges ++ [(src, dst)] }

/-- Modelled from the spec: register a conditional branch on a start
node, which must exist; a frozen builder rejects mutation. -/
def Graph.AddBranch (g : Graph) (startNode : String) (b : GraphBranch) : Except String Graph :=
  if g.frozen then .error "graph is frozen, cannot add branch"
  else if ¬ (startNode = START ∨ startNode ∈ g.nodes) then
    .error ("branch from unknown node: " ++ startNode)
  else .ok { g with branches := g.branches ++ [(startNode, b)] }

/-! ### Chain builder (chain.go) -/

/-- A node handed to the chain: its display name (`getNodeName`) and an
optional user key override (`nodeInfo.key`, empty when unset). -/
structure NodeSpec where
  name : String
  keyOverride : String
deriving Repr, DecidableEq

/-- Embedding of `Chain`: the first recorded error, the underlying graph
builder `gg`, the name counter state, and the keys of the nodes awaiting
connection to the next appended element. -/
structure Chain where
  err : Option String
  gg : Graph
  namePre : String
  nodeIdx : Nat
  preNodeKeys : List String
deriving Repr, DecidableEq

/-- Embedding of `NewChain`. -/
def NewChain : Chain := ⟨none, Graph.empty, "", 0, []⟩

/-- Embedding of `Chain.reportError`: only the first error is kept. -/
def Chain.reportError (c : Chain) (e : Option String) : Chain :=
  if c.err = none then { c with err := e } else c

/-- Embedding of `Chain.nextNodeKey`: generated key plus updated counter
state.  `ComponentOfChain` is the string "Chain" (its definition is
outside the provided sources; the exact value is immaterial). -/
def Chain.nextNodeKey (c : Chain) (name : String) : String × Chain :=
  let p := if c.namePre = "" then "Chain" else c.namePre
  (p ++ "[" ++ toString c.nodeIdx ++ "]_" ++ name,
   { c with namePre := p, nodeIdx := c.nodeIdx + 1 })

/-- The edge-adding loop at the end of `Chain.addNode`: connect every
pre-node key to the new node; the first failing edge is reported and the
function returns without updating `preNodeKeys`. -/
def Chain.addEdgesTo (c : Chain) (nodeKey : String) : List String → Chain
  | [] => { c with preNodeKeys := [nodeKey] }
  | p :: rest =>
    match c.gg.AddEdge p nodeKey with
    | .error e => c.reportError (some e)
    | .ok g => Chain.addEdgesTo { c with gg := g } nodeKey rest

/-- Embedding of `Chain.addNode` (the shared helper behind all
`AppendChatModel`/`AppendLambda`/... mutators).  A `none` argument embeds
a nil `*graphNode`.  Mirrors the source exactly: it returns immediately
on a poisoned chain; after a failed `gg.addNode` it reports the error but
still proceeds to the edge loop. -/
def Chain.addNode (c : Chain) (node : Option NodeSpec) : Chain :=
  if c.err ≠ none then c
  else
    match node with
    | none => c.reportError (some "chain add node invalid, node is nil")
    | some n =>
      let (generated, c1) := c.nextNodeKey n.name
      let nodeKey := if n.keyOverride ≠ "" then n.keyOverride else generated
      let c2 :=
        match c1.gg.addNode nodeKey with
        | .error e => c1.reportError (some e)
        | .ok g => { c1 with gg := g }
      let c3 :=
        if c2.preNodeKeys = [] then { c2 with preNodeKeys := [START] } else c2
      c3.addEdgesTo nodeKey c3.preNodeKeys

/-- Embedding of `ChainBranch`: its own recorded error and the candidate
key → node association (`key2BranchNode`; Go map iteration order is fixed
to list order here). -/
structure ChainBranch where
  err : Option String
  key2BranchNode : List (String × NodeSpec)
deriving Repr, DecidableEq

/-- The node-adding loop of `Chain.AppendBranch`: register one graph node
per candidate under the generated key `pName[key]_name`, accumulating the
`key2NodeKey` association; the first failure is reported and aborts. -/
def Chain.addBranchNodes (c : Chain) (pName : String) :
    List (String × NodeSpec) → List (String × String) → Chain × Option (List (String × String))
  | [], acc => (c, some acc)
  | (key, node) :: rest, acc =>
    let nodeKey := pName ++ "[" ++ key ++ "]_" ++ node.name
    match c.gg.addNode nodeKey with
    | .error e =>
      (c.reportError (some ("add branch node[" ++ nodeKey ++ "] to chain failed: " ++ e)), none)
    | .ok g => Chain.addBranchNodes { c with gg := g } pName rest (acc ++ [(key, nodeKey)])

/-- The tail of `Chain.AppendBranch` after validation: generate the
branch name, add the candidate nodes, build the `GraphBranch` whose
`endNodes` are the values of `key2NodeKey`, register it on the start
node, and make the candidates the new pre-node keys. -/
def Chain.appendBranchAt (c : Chain) (startNode : String) (cb : ChainBranch) : Chain :=
  let (pName, c1) := c.nextNodeKey "Branch"
  match c1.addBranchNodes pName cb.key2BranchNode [] with
  | (cBad, none) => cBad
  | (c2, some key2NodeKey) =>
    let vals := branchEndNodes key2NodeKey
    match c2.gg.AddBranch startNode ⟨vals⟩ with
    | .error e => c2.reportError (some ("chain append branch failed: " ++ e))
    | .ok g => { c2 with gg := g, preNodeKeys := vals }

/-- Embedding of `Chain.AppendBranch`.  Note: unlike `addNode`, the Go
source does not return early on an already-poisoned chain, so the
candidate nodes and the branch are still added to `gg` in that case. -/
def Chain.AppendBranch (c : Chain) (b : Option ChainBranch) : Chain :=
  match b with
  | none => c.reportError (some "append branch invalid, branch is nil")
  | some cb =>
    match cb.err with
    | some e => c.reportError (some ("append branch error: " ++ e))
    | none =>
      if cb.key2BranchNode.length = 0 then
        c.reportError (some "append branch invalid, nodeList is empty")
      else if cb.key2BranchNode.length = 1 then
        c.reportError (some "append branch invalid, nodeList length = 1")
      else
        match c.preNodeKeys with
        | [] => c.appendBranchAt START cb
        | [p] => c.appendBranchAt p cb
        | _ :: _ :: _ =>
          c.reportError (some "append branch invalid, multiple previous nodes")

/-! ### Chain compile (chain.go `Compile` / `compile` / `addEnds`) -/

/-- The compile options relevant to the chain layer: the explicitly
requested node trigger mode (empty when not requested). -/
structure CompileOptions where
  nodeTriggerMode : String
deriving Repr, DecidableEq

/-- Embedding of `addEnds`: fail when no pre-node keys exist, otherwise
connect every pre-node key to END. -/
def Chain.addEnds (c : Chain) : Except String Chain :=
  if c.preNodeKeys = [] then
    .error ("pre node keys not set, number of nodes in chain= " ++ toString c.gg.nodes.length)
  else addEndsLoop c c.preNodeKeys
where
  addEndsLoop (c : Chain) : List String → Except String Chain
    | [] => .ok c
    | nodeKey :: rest =>
      match c.gg.AddEdge nodeKey END with
      | .error e => .error e
      | .ok g => addEndsLoop { c with gg := g } rest

/-- The compile checker that `Compile`/`compile` wrap around the graph's
checker: an explicitly requested trigger mode other than `AnyPredecessor`
is rejected. -/
def chainCompileChecker (nodeTriggerMode : String) : Except String Unit :=
  if nodeTriggerMode ≠ "" ∧ nodeTriggerMode ≠ AnyPredecessor then
    .error "only support AnyPredecessor in chain"
  else .ok ()

/-- Modelled from the spec: the trigger mode a compiled chain actually
runs in — the explicitly requested one, or `AnyPredecessor` when none was
requested (the chain's default). -/
def effectiveTriggerMode (nodeTriggerMode : String) : String :=
  if nodeTriggerMode = "" then AnyPredecessor else nodeTriggerMode

/-- Embedding of `Chain.Compile` (the exported method; the internal
AnyGraph `compile` method shares the same error structure): return the
first recorded error if poisoned; add the END edges only when the graph
is not yet frozen; run the wrapped compile checker; then hand off to the
graph compile, which — modelled from the spec, where freezing is
idempotent — freezes the builder and produces the plan.  The result is
the post-compile chain state (the Go method mutates `gg` in place). -/
def Chain.Compile (c : Chain) (opts : CompileOptions) : Except String Chain :=
  match c.err with
  | some e => .error e
  | none =>
    let ended : Except String Chain :=
      if ¬ c.gg.frozen then c.addEnds else .ok c
    match ended with
    | .error e => .error e
    | .ok c1 =>
      match chainCompileChecker opts.nodeTriggerMode with
      | .error e => .error e
      | .ok _ => .ok { c1 with gg := { c1.gg with frozen := true } }

/-! ### ReAct agent layer (src/unnamed/part_002) -/

/-- A single tool call carried by a message: its ID and the called
function's name (`ToolCall.ID`, `ToolCall.Function.Name`). -/
structure ToolCall where
  id : String
  funcName : String
deriving Repr, DecidableEq

/-- The parts of `schema.Message` the agent layer inspects: content,
tool calls, and the tool call ID of a tool response. -/
structure Message where
  content : String
  toolCalls : List ToolCall
  toolCallID : String
deriving Repr, DecidableEq

/-- A stream of messages with an explicit closed flag: the chunk list is
what `Recv` will deliver in order (a `.error` chunk is a receive error,
exhaustion is io.EOF). -/
structure MsgStream where
  chunks : List (Except String Message)
  closed : Bool
deriving Repr, DecidableEq

/-- `Close` on a stream. -/
def MsgStream.close (s : MsgStream) : MsgStream := { s with closed := true }

/-- The receive loop of `firstChunkStreamToolCallChecker`: EOF yields
`(false, nil)`, a receive error is returned, a chunk with tool calls
yields `(true, nil)`, an empty chunk is skipped, and the first non-empty
chunk yields `(false, nil)`. -/
def firstChunkLoop : List (Except String Message) → Except String Bool
  | [] => .ok false
  | .error e :: _ => .error e
  | .ok msg :: rest =>
    if msg.toolCalls.length > 0 then .ok true
    else if msg.content.length = 0 then firstChunkLoop rest
    else .ok false

/-- Embedding of `firstChunkStreamToolCallChecker`: the deferred
`sr.Close()` runs on every exit path of the loop, so the result is the
loop's outcome paired with the closed stream. -/
def firstChunkStreamToolCallChecker (sr : MsgStream) :
    Except String Bool × MsgStream :=
  (firstChunkLoop sr.chunks, sr.close)

/-- Embedding of the branch condition installed by `buildReturnDirectly`:
it closes its input stream first, then reads the run state's
`ReturnDirectlyToolCallID` to pick the successor (`direct_return` when
set, the chat model node otherwise). -/
def returnDirectlyBranchCondition (msgsStream : MsgStream)
    (returnDirectlyToolCallID : String) : Except String String × MsgStream :=
  let closedStream := msgsStream.close
  let endNode :=
    if returnDirectlyToolCallID.length > 0 then "direct_return" else "chat"
  (.ok endNode, closedStream)

/-- Embedding of the scan loop of `getReturnDirectlyToolCallID`: first
tool call whose function name is in the return-directly set wins. -/
def grdLoop (toolReturnDirectly : List String) : List ToolCall → String
  | [] => ""
  | tc :: rest =>
    if tc.funcName ∈ toolReturnDirectly then tc.id else grdLoop toolReturnDirectly rest

/-- Embedding of `getReturnDirectlyToolCallID` (the Go set
`map[string]struct{}` becomes a list of names): empty set short-circuits
to the empty string, otherwise scan the message's tool calls in order. -/
def getReturnDirectlyToolCallID (input : Message) (toolReturnDirectly : List String) : String :=
  if toolReturnDirectly.length = 0 then ""
  else grdLoop toolReturnDirectly input.toolCalls

/-- The node keys `NewAgent` adds to the ReAct graph: the chat model node
`"chat"` and the tools node `"tools"`, plus the `"direct_return"` lambda
node when `ToolReturnDirectly` is non-empty. -/
def reactGraphNodeKeys (hasReturnDirectly : Bool) : List String :=
  if hasReturnDirectly then ["chat", "tools", "direct_return"] else ["chat", "tools"]

/-- Modelled from the spec: the default maximum step count the compiler
assigns is the node count plus a constant headroom of 10 ("default 12 of
steps in pregel (node num + 10)"). -/
def defaultMaxRunSteps (nodeCount : Nat) : Nat := nodeCount + 10

/-- Modelled from the spec: the maximum step bound a compiled graph runs
with — the explicitly configured `MaxStep` when positive, the default
otherwise. -/
def effectiveMaxRunSteps (configMaxStep : Nat) (nodeCount : Nat) : Nat :=
  if configMaxStep = 0 then defaultMaxRunSteps nodeCount else configMaxStep

/-! ### Helper lemmas -/

theorem reportError_gg (c : Chain) (e : Option String) :
    (c.reportError e).gg = c.gg := by
  unfold Chain.reportError
  split <;> rfl

theorem reportError_some_err (c : Chain) (e : String) :
    (c.reportError (some e)).err ≠ none := by
  unfold Chain.reportError
  split
  · simp
  · assumption

theorem lookupKey_mem_endNodes {m : List (String × String)} {k nodeKey : String}
    (h : lookupKey m k = some nodeKey) : nodeKey ∈ branchEndNodes m := by
  unfold lookupKey at h
  rcases Option.map_eq_some'.mp h with ⟨p, hfind, hsnd⟩
  have hp : p ∈ m := List.mem_of_find?_eq_some hfind
  simpa [branchEndNodes, hsnd] using List.mem_map_of_mem Prod.snd hp

theorem chainCompileChecker_ok_mode {mode : String} {u : Unit}
    (h : chainCompileChecker mode = .ok u) :
    effectiveTriggerMode mode = AnyPredecessor := by
  unfold chainCompileChecker at h
  unfold effectiveTriggerMode
  by_cases h0 : mode = ""
  · simp [h0]
  · by_cases h1 : mode = AnyPredecessor
    · simp [h0, h1]
    · simp [h0, h1] at h

theorem addEndsLoop_ok_preserves {l : List String} :
    ∀ {c c' : Chain}, Chain.addEnds.addEndsLoop c l = .ok c' →
      c'.err = c.err ∧ c'.gg.frozen = c.gg.frozen := by
  induction l with
  | nil =>
    intro c c' h
    unfold Chain.addEnds.addEndsLoop at h
    cases h
    exact ⟨rfl, rfl⟩
  | cons nodeKey rest ih =>
    intro c c' h
    unfold Chain.addEnds.addEndsLoop at h
    cases hedge : c.gg.AddEdge nodeKey END with
    | error e => rw [hedge] at h; cases h
    | ok g =>
      rw [hedge] at h
      simp only at h
      have hres := ih h
      have hfr : g.frozen = c.gg.frozen := by
        unfold Graph.AddEdge at hedge
        split at hedge
        · cases hedge
        · split at hedge
          · cases hedge
          · split at hedge
            · cases hedge
            · cases hedge; rfl
      exact ⟨hres.1, hres.2.trans hfr⟩

theorem addEnds_ok_preserves {c c' : Chain} (h : c.addEnds = .ok c') :
    c'.err = c.err ∧ c'.gg.frozen = c.gg.frozen := by
  unfold Chain.addEnds at h
  split at h
  · cases h
  · exact addEndsLoop_ok_preserves h

/-! ### Claims -/

/-- C1: for every chain branch built via `AppendBranch`, if the condition
function returns the key `k` that the chain registered under node key
`nodeKey` in `key2NodeKey`, then the wrapped condition (`invokeCon`)
resolves exactly to `nodeKey`, that node is among the declared candidates
(`endNodes` of `gBranch`), the run activates exactly that candidate, and
no other declared candidate is ever invoked. -/
theorem branch_run_selects_registered_candidate
    (m : List (String × String)) (k nodeKey : String)
    (h : lookupKey m k = some nodeKey) :
    invokeCon m (.ok (.str k)) = .ok nodeKey ∧
    branchRunInvoked m (.ok (.str k)) = [nodeKey] ∧
    nodeKey ∈ branchEndNodes m ∧
    (∀ cand, cand ∈ branchEndNodes m →
      cand ∈ branchRunInvoked m (.ok (.str k)) → cand = nodeKey) := by
  have hinv : invokeCon m (.ok (.str k)) = .ok nodeKey := by
    simp [invokeCon, h]
  refine ⟨hinv, ?_, lookupKey_mem_endNodes h, ?_⟩
  · simp [branchRunInvoked, hinv]
  · intro cand _ hmem
    simp [branchRunInvoked, hinv] at hmem
    exact hmem

theorem branch_run_selects_registered_candidate_witness :
    invokeCon [("a", "NA"), ("b", "NB")] (.ok (.str "b")) = .ok "NB" ∧
    branchRunInvoked [("a", "NA"), ("b", "NB")] (.ok (.str "b")) = ["NB"] := by
  have h := branch_run_selects_registered_candidate
    [("a", "NA"), ("b", "NB")] "b" "NB" (by decide)
  exact ⟨h.1, h.2.1⟩

/-- C2: when the branch condition's runtime result is not a member of
the declared candidate key set (or not a string at all), both wrapped
conditions (`invokeCon` for the invoke path, `transformCon` for the
stream path) return an error; and `invokeCon` never succeeds except
with the node registered for a declared key (no silent fallback). -/
theorem branch_undeclared_result_rejected
    (m : List (String × String)) (r : Except String BranchAny)
    (rs : Except String BranchStream) :
    (condResultOutsideDeclared m r → ∃ e, invokeCon m r = .error e) ∧
    (streamResultOutsideDeclared m rs → ∃ e, transformCon m rs = .error e) ∧
    (∀ n, invokeCon m r = .ok n →
      ∃ s, r = .ok (.str s) ∧ lookupKey m s = some n) := by
  refine ⟨?_, ?_, ?_⟩
  · intro hout
    match r with
    | .error e => exact absurd hout (by simp [condResultOutsideDeclared])
    | .ok (.nonStr t) =>
      exact ⟨"chain branch result not string, got: " ++ t, rfl⟩
    | .ok (.str s) =>
      have hl : lookupKey m s = none := hout
      refine ⟨"chain branch result not in added keys: " ++ s, ?_⟩
      simp [invokeCon, hl]
  · intro hout
    match rs with
    | .error e => exact absurd hout (by simp [streamResultOutsideDeclared])
    | .ok (.otherStream t) =>
      exact ⟨"chain branch result not string, got: " ++ t, rfl⟩
    | .ok (.strStream chunks) =>
      have hl : ∀ s, concatStringChunks chunks = .ok s → lookupKey m s = none := hout
      cases hc : concatStringChunks chunks with
      | error e =>
        refine ⟨e, ?_⟩
        simp [transformCon, hc]
      | ok s =>
        refine ⟨"chain branch result not in added keys: " ++ s, ?_⟩
        simp [transformCon, hc, hl s hc]
  · intro n h
    match r with
    | .error e => exact absurd h (by simp [invokeCon])
    | .ok (.nonStr t) => exact absurd h (by simp [invokeCon])
    | .ok (.str s) =>
      simp only [invokeCon] at h
      cases hl : lookupKey m s with
      | none => rw [hl] at h; cases h
      | some nk =>
        rw [hl] at h
        simp only at h
        cases h
        exact ⟨s, rfl, hl⟩

theorem branch_undeclared_result_rejected_witness :
    (∃ e, invokeCon [("a", "NA"), ("b", "NB")] (.ok (.str "zz")) = .error e) ∧
    (∃ e, transformCon [("a", "NA"), ("b", "NB")]
      (.ok (.otherStream "int")) = .error e) := by
  have h := branch_undeclared_result_rejected [("a", "NA"), ("b", "NB")]
    (.ok (.str "zz")) (.ok (.otherStream "int"))
  exact ⟨h.1 (by decide), h.2.1 (by trivial)⟩

/-- C3: `AppendBranch` rejects a nil branch and any branch whose
candidate set has fewer than two entries: after the call the chain holds
a recorded error and the underlying graph is unchanged (the branch was
not added). -/
theorem append_branch_small_candidate_set_rejected
    (c : Chain) (b : Option ChainBranch)
    (h : b = none ∨ ∃ cb, b = some cb ∧ cb.key2BranchNode.length < 2) :
    (c.AppendBranch b).err ≠ none ∧ (c.AppendBranch b).gg = c.gg := by
  rcases h with rfl | ⟨cb, rfl, hlen⟩
  · exact ⟨reportError_some_err c _, reportError_gg c _⟩
  · obtain ⟨cbErr, cbList⟩ := cb
    cases cbErr with
    | some e => exact ⟨reportError_some_err c _, reportError_gg c _⟩
    | none =>
      cases cbList with
      | nil => exact ⟨reportError_some_err c _, reportError_gg c _⟩
      | cons x xs =>
        cases xs with
        | nil => exact ⟨reportError_some_err c _, reportError_gg c _⟩
        | cons y ys => exact absurd hlen (by simp [List.length])

theorem append_branch_small_candidate_set_rejected_witness :
    (NewChain.AppendBranch (some ⟨none, [("a", ⟨"n1", ""⟩)]⟩)).err ≠ none ∧
    (NewChain.AppendBranch (some ⟨none, [("a", ⟨"n1", ""⟩)]⟩)).gg = NewChain.gg :=
  append_branch_small_candidate_set_rejected NewChain
    (some ⟨none, [("a", ⟨"n1", ""⟩)]⟩)
    (Or.inr ⟨_, rfl, by decide⟩)

/-- Inversion principle for `Chain.Compile`: a successful compile implies
no recorded error, a passing trigger-mode check, END edges added exactly
when the graph was not yet frozen, and a frozen result. -/
theorem Compile_ok_inv {c : Chain} {opts : CompileOptions} {c' : Chain}
    (h : Chain.Compile c opts = .ok c') :
    c.err = none ∧
    ∃ c1 u, chainCompileChecker opts.nodeTriggerMode = .ok u ∧
      ((c.gg.frozen = false ∧ c.addEnds = .ok c1) ∨ (c.gg.frozen = true ∧ c1 = c)) ∧
      c' = { c1 with gg := { c1.gg with frozen := true } } := by
  cases hcerr : c.err with
  | some e =>
    simp only [Chain.Compile, hcerr] at h
    exact Except.noConfusion h
  | none =>
    refine ⟨rfl, ?_⟩
    simp only [Chain.Compile, hcerr] at h
    cases hf : c.gg.frozen with
    | true =>
      rw [if_neg (by simp [hf])] at h
      simp only at h
      cases hchk : chainCompileChecker opts.nodeTriggerMode with
      | error e =>
        rw [hchk] at h
        exact Except.noConfusion h
      | ok u =>
        rw [hchk] at h
        simp only [Except.ok.injEq] at h
        exact ⟨c, u, rfl, Or.inr ⟨rfl, rfl⟩, h.symm⟩
    | false =>
      rw [if_pos (by simp [hf])] at h
      cases hadd : c.addEnds with
      | error e =>
        rw [hadd] at h
        exact Except.noConfusion h
      | ok c1 =>
        rw [hadd] at h
        simp only at h
        cases hchk : chainCompileChecker opts.nodeTriggerMode with
        | error e =>
          rw [hchk] at h
          exact Except.noConfusion h
        | ok u =>
          rw [hchk] at h
          simp only [Except.ok.injEq] at h
          exact ⟨c1, u, rfl, Or.inl ⟨rfl, rfl⟩, h.symm⟩

/-- Forward evaluation of `Chain.Compile` on an unpoisoned, already
frozen chain whose trigger-mode check passes. -/
theorem Compile_eval_frozen {c : Chain} {opts : CompileOptions} {u : Unit}
    (herr : c.err = none) (hf : c.gg.frozen = true)
    (hchk : chainCompileChecker opts.nodeTriggerMode = .ok u) :
    Chain.Compile c opts = .ok { c with gg := { c.gg with frozen := true } } := by
  simp only [Chain.Compile, herr, hchk]
  rw [if_neg (by simp [hf])]
  simp [herr]

/-- C4: `Chain.Compile` rejects any explicitly requested node trigger
mode other than `AnyPredecessor` with an error, so a chain that compiles
successfully always runs in `AnyPredecessor` mode. -/
theorem chain_compile_only_any_predecessor (c : Chain) (opts : CompileOptions) :
    (∀ c', Chain.Compile c opts = .ok c' →
      effectiveTriggerMode opts.nodeTriggerMode = AnyPredecessor) ∧
    (opts.nodeTriggerMode ≠ "" → opts.nodeTriggerMode ≠ AnyPredecessor →
      ∃ e, Chain.Compile c opts = .error e) := by
  constructor
  · intro c' h
    obtain ⟨-, c1, u, hchk, -, -⟩ := Compile_ok_inv h
    exact chainCompileChecker_ok_mode hchk
  · intro h1 h2
    have hchk : chainCompileChecker opts.nodeTriggerMode =
        .error "only support AnyPredecessor in chain" := by
      simp [chainCompileChecker, h1, h2]
    cases hcerr : c.err with
    | some e => exact ⟨e, by simp [Chain.Compile, hcerr]⟩
    | none =>
      simp only [Chain.Compile, hcerr]
      cases hend : (if ¬c.gg.frozen then c.addEnds else .ok c) with
      | error e => exact ⟨e, rfl⟩
      | ok c1 =>
        refine ⟨"only support AnyPredecessor in chain", ?_⟩
        simp [hchk]

theorem chain_compile_only_any_predecessor_witness :
    effectiveTriggerMode "" = AnyPredecessor ∧
    (∃ e, Chain.Compile (NewChain.addNode (some ⟨"n", ""⟩))
      ⟨AllPredecessor⟩ = .error e) := by
  refine ⟨?_, ?_⟩
  · exact (chain_compile_only_any_predecessor
      (NewChain.addNode (some ⟨"n", ""⟩)) ⟨""⟩).1
      (Chain.mk none
        (Graph.mk ["Chain[0]_n"] [("start", "Chain[0]_n"), ("Chain[0]_n", "end")] [] true)
        "Chain" 1 ["Chain[0]_n"])
      (by decide)
  · exact (chain_compile_only_any_predecessor
      (NewChain.addNode (some ⟨"n", ""⟩)) ⟨AllPredecessor⟩).2
      (by decide) (by decide)

/-- C5 (corrected): once a chain is poisoned, the first error is
remembered forever (`reportError` never overwrites it), `addNode` leaves
the chain — graph included — completely unchanged, and `Compile` returns
exactly the first recorded error.  (The original claim that *every*
mutator leaves the underlying graph unchanged is refuted by
`chain_poisoned_append_branch_still_mutates` below: `AppendBranch` does
not consult the chain error before mutating the graph.) -/
theorem chain_poisoned_behavior (c : Chain) (e : String) (h : c.err = some e) :
    (∀ n, c.addNode n = c) ∧
    (∀ e2, (c.reportError e2).err = some e) ∧
    (∀ opts, Chain.Compile c opts = .error e) := by
  refine ⟨?_, ?_, ?_⟩
  · intro n
    simp [Chain.addNode, h]
  · intro e2
    simp [Chain.reportError, h]
  · intro opts
    simp [Chain.Compile, h]

theorem chain_poisoned_behavior_witness :
    (NewChain.addNode none).addNode (some ⟨"x", ""⟩) = NewChain.addNode none ∧
    Chain.Compile (NewChain.addNode none) ⟨""⟩ =
      .error "chain add node invalid, node is nil" := by
  have h := chain_poisoned_behavior (NewChain.addNode none)
    "chain add node invalid, node is nil" (by decide)
  exact ⟨h.1 _, h.2.2 _⟩

/-- C5 counterexample: a poisoned chain (first mutator failed, error
recorded) on which a subsequent `AppendBranch` with a valid two-candidate
branch still mutates the underlying graph — refuting "every subsequent
mutator leaves the underlying graph unchanged". -/
theorem chain_poisoned_append_branch_still_mutates :
    (NewChain.addNode none).err = some "chain add node invalid, node is nil" ∧
    ((NewChain.addNode none).AppendBranch
        (some ⟨none, [("a", ⟨"n1", ""⟩), ("b", ⟨"n2", ""⟩)]⟩)).gg ≠
      (NewChain.addNode none).gg ∧
    ((NewChain.addNode none).AppendBranch
        (some ⟨none, [("a", ⟨"n1", ""⟩), ("b", ⟨"n2", ""⟩)]⟩)).err =
      some "chain add node invalid, node is nil" := by
  decide

/-- C6: compiling is idempotent with respect to freezing: a successful
`Compile` leaves the graph frozen, and a second `Compile` of the result
skips the END-edge pass and succeeds with the same chain. -/
theorem chain_compile_idempotent (c : Chain) (opts : CompileOptions) (c' : Chain)
    (h : Chain.Compile c opts = .ok c') :
    c'.gg.frozen = true ∧ Chain.Compile c' opts = .ok c' := by
  obtain ⟨herr, c1, u, hchk, hdisj, hc'⟩ := Compile_ok_inv h
  have herr1 : c1.err = none := by
    rcases hdisj with ⟨-, hadd⟩ | ⟨-, rfl⟩
    · exact (addEnds_ok_preserves hadd).1.trans herr
    · exact herr
  subst hc'
  refine ⟨rfl, ?_⟩
  have := @Compile_eval_frozen { c1 with gg := { c1.gg with frozen := true } }
    opts u herr1 rfl hchk
  simpa using this

theorem chain_compile_idempotent_witness :
    Chain.Compile
      (Chain.mk none
        (Graph.mk ["Chain[0]_n"] [("start", "Chain[0]_n"), ("Chain[0]_n", "end")] [] true)
        "Chain" 1 ["Chain[0]_n"]) ⟨""⟩ =
      .ok (Chain.mk none
        (Graph.mk ["Chain[0]_n"] [("start", "Chain[0]_n"), ("Chain[0]_n", "end")] [] true)
        "Chain" 1 ["Chain[0]_n"]) :=
  (chain_compile_idempotent (NewChain.addNode (some ⟨"n", ""⟩)) ⟨""⟩ _ (by decide)).2

/-- C9: compiling a chain to which nothing was ever appended fails: with
no pre-node keys, `addEnds` reports that no node exists to connect to
END, whatever compile options are passed. -/
theorem empty_chain_compile_fails (opts : CompileOptions) :
    Chain.Compile NewChain opts =
      .error "pre node keys not set, number of nodes in chain= 0" := rfl

/-- C7: the compiler's default maximum step count is the node count plus
a headroom of 10; the ReAct graph without return-directly tools has
exactly two nodes, so its default bound is 12. -/
theorem react_default_max_step :
    (reactGraphNodeKeys false).length = 2 ∧
    (∀ n, defaultMaxRunSteps n = n + 10) ∧
    effectiveMaxRunSteps 0 (reactGraphNodeKeys false).length = 12 :=
  ⟨rfl, fun _ => rfl, rfl⟩

/-- C8: every embedded stream receiver closes its input stream on every
exit path: `firstChunkStreamToolCallChecker` (whose deferred close runs
whether the loop exits on EOF, a receive error, detected tool calls, or
the first non-empty chunk) and the return-directly branch condition
(which closes before evaluating the state). -/
theorem stream_receivers_close_on_every_exit
    (sr : MsgStream) (returnDirectlyToolCallID : String) :
    (firstChunkStreamToolCallChecker sr).2.closed = true ∧
    (returnDirectlyBranchCondition sr returnDirectlyToolCallID).2.closed = true :=
  ⟨rfl, rfl⟩

/-- First-match lemma for the scan loop of `getReturnDirectlyToolCallID`. -/
theorem grdLoop_eq_find (s : List String) (l : List ToolCall) :
    grdLoop s l =
      (match l.find? (fun tc => decide (tc.funcName ∈ s)) with
        | some tc => tc.id
        | none => "") := by
  induction l with
  | nil => rfl
  | cons tc rest ih =>
    by_cases hmem : tc.funcName ∈ s
    · simp [grdLoop, List.find?_cons, hmem]
    · simp [grdLoop, List.find?_cons, hmem, ih]

/-- C10: `getReturnDirectlyToolCallID` returns the empty string when the
return-directly set is empty or no tool call matches, and otherwise the
ID of the *first* tool call whose function name is in the set — so when
several called tools are in the set, only the first is returned. -/
theorem get_return_directly_first_match (input : Message) (s : List String) :
    (s = [] → getReturnDirectlyToolCallID input s = "") ∧
    (input.toolCalls.find? (fun tc => decide (tc.funcName ∈ s)) = none →
      getReturnDirectlyToolCallID input s = "") ∧
    (∀ tc, input.toolCalls.find? (fun tc => decide (tc.funcName ∈ s)) = some tc →
      getReturnDirectlyToolCallID input s = tc.id) ∧
    (∀ pre tc post, input.toolCalls = pre ++ tc :: post →
      (∀ tc2 ∈ pre, tc2.funcName ∉ s) → tc.funcName ∈ s →
      getReturnDirectlyToolCallID input s = tc.id) := by
  refine ⟨?_, ?_, ?_, ?_⟩
  · intro hs
    simp [getReturnDirectlyToolCallID, hs]
  · intro hfind
    by_cases hs : s.length = 0
    · simp [getReturnDirectlyToolCallID, hs]
    · simp only [getReturnDirectlyToolCallID, if_neg hs]
      rw [grdLoop_eq_find, hfind]
  · intro tc hfind
    by_cases hs : s.length = 0
    · have hmem := List.find?_some hfind
      rw [List.length_eq_zero.mp hs] at hmem
      simp at hmem
    · simp only [getReturnDirectlyToolCallID, if_neg hs]
      rw [grdLoop_eq_find, hfind]
  · intro pre tc post hsplit hpre hmem
    have hs : s.length ≠ 0 := by
      intro h0
      rw [List.length_eq_zero.mp h0] at hmem
      simp at hmem
    simp only [getReturnDirectlyToolCallID, if_neg hs, hsplit]
    clear hsplit
    induction pre with
    | nil => simp [grdLoop, hmem]
    | cons p ps ih =>
      have hp : p.funcName ∉ s := hpre p (by simp)
      simp only [List.cons_append, grdLoop, if_neg hp]
      exact ih (fun tc2 htc2 => hpre tc2 (by simp [htc2]))

theorem get_return_directly_first_match_witness :
    getReturnDirectlyToolCallID ⟨"", [⟨"id1", "f1"⟩, ⟨"id2", "f2"⟩], ""⟩
      ["f2", "f1"] = "id1" ∧
    getReturnDirectlyToolCallID ⟨"", [⟨"id1", "f1"⟩], ""⟩ [] = "" := by
  constructor
  · exact (get_return_directly_first_match ⟨"", [⟨"id1", "f1"⟩, ⟨"id2", "f2"⟩], ""⟩
      ["f2", "f1"]).2.2.2 [] ⟨"id1", "f1"⟩ [⟨"id2", "f2"⟩] rfl (by simp) (by decide)
  · exact (get_return_directly_first_match ⟨"", [⟨"id1", "f1"⟩], ""⟩ []).1 rfl

end Eino
